import Mathlib

/-!
Shallow embedding of `src/aou_pheno_cc/cli/createphenotypes.py`: the phenotype
case/control derivation pipeline.  Dates are modelled as integers (days since an
arbitrary epoch), ages as rationals (the source divides a day count by 365.25,
i.e. multiplies by 4/1461).  Person sets are `Finset ℕ`; SQL tables are lists of
records.
-/

namespace AouPhenoCC

/-- A row of the `demographics` table. -/
structure Demo where
  person_id : ℕ
  dob : Option ℤ
  sex_at_birth : String
  has_srwgs : Bool
  has_ehr_data : Bool
  ancestry_pred : Option String
deriving DecidableEq, Repr

/-- A row of `condition_occurrence` / `procedure_occurrence`: the event date may
be NULL in the store. -/
structure Event where
  person_id : ℕ
  concept_id : ℕ
  date : Option ℤ
deriving DecidableEq, Repr

/-- A row of `condition_descendants` / `procedure_descendants`. -/
structure ClosureRow where
  ancestor_concept_id : ℕ
  descendant_concept_id : ℕ
deriving DecidableEq, Repr

/-- The relational store (`OMOP.db`). -/
structure DB where
  demographics : List Demo
  condition_occurrence : List Event
  procedure_occurrence : List Event
  condition_descendants : List ClosureRow
  procedure_descendants : List ClosureRow
deriving DecidableEq, Repr

/-- The two event kinds handled by the pipeline. -/
inductive EventKind where
  | condition
  | procedure
deriving DecidableEq, Repr

/-- Events table for a kind. -/
def eventsOf (db : DB) : EventKind → List Event
  | .condition => db.condition_occurrence
  | .procedure => db.procedure_occurrence

/-- Closure table for a kind. -/
def closureOf (db : DB) : EventKind → List ClosureRow
  | .condition => db.condition_descendants
  | .procedure => db.procedure_descendants

/-- Embeds `_descendants` (createphenotypes.py lines 62-68): all
`descendant_concept_id` values of closure rows whose ancestor is among the given
concept ids; empty input short-circuits to the empty list. -/
def descendants (closure : List ClosureRow) (concept_ids : List ℕ) : List ℕ :=
  if concept_ids = [] then []
  else (closure.filter (fun r => r.ancestor_concept_id ∈ concept_ids)).map
    (fun r => r.descendant_concept_id)

/-- The concept hierarchy expansion step of `_occurrence` (lines 81-82):
`keys = set(concept_ids); keys.update(_descendants(...))`. -/
def expandConcepts (closure : List ClosureRow) (concept_ids : List ℕ) : Finset ℕ :=
  concept_ids.toFinset ∪ (descendants closure concept_ids).toFinset

/-- First `dob` recorded for a person in `demographics`, if any. -/
def dobOf (db : DB) (pid : ℕ) : Option ℤ :=
  match db.demographics.find? (fun d => d.person_id = pid) with
  | some d => d.dob
  | none => none

/-- `(d - b).days / 365.25`, computed exactly over ℚ as `4 * (d - b) / 1461`. -/
def ageYears (d b : ℤ) : ℚ := mkRat (4 * (d - b)) 1461

/-- One row of the per-person occurrence summary returned by `_occurrence`. -/
structure OccRow where
  person_id : ℕ
  min_date : ℤ
  max_date : ℤ
  min_age : Option ℚ
  max_age : Option ℚ
  n_dates : ℕ
deriving DecidableEq, Repr

/-- The (person, date) pairs of qualifying events: events whose concept id is in
the expanded key set and whose date is non-NULL (`df.dropna()`, line 103). -/
def datedEvents (events : List Event) (keys : Finset ℕ) : List (ℕ × ℤ) :=
  events.filterMap (fun e =>
    if e.concept_id ∈ keys then e.date.map (fun d => (e.person_id, d)) else none)

/-- Embeds `_occurrence` (lines 71-113): per person with at least one dated
qualifying event, the min/max distinct event date, ages at those dates from the
person's date of birth (missing when no dob is recorded), and the number of
distinct event dates (same-day duplicates collapsed by the
`groupby(["person_id", "date"])`). -/
def occurrence (db : DB) (kind : EventKind) (concept_ids : List ℕ) : List OccRow :=
  if concept_ids = [] then []
  else
    let keys := expandConcepts (closureOf db kind) concept_ids
    let pairs := datedEvents (eventsOf db kind) keys
    ((pairs.map Prod.fst).dedup).filterMap (fun pid =>
      match ((pairs.filter (fun q => q.1 = pid)).map Prod.snd).dedup with
      | [] => none
      | d :: ds =>
        let mn := ds.foldl min d
        let mx := ds.foldl max d
        some { person_id := pid
               min_date := mn
               max_date := mx
               min_age := (dobOf db pid).map (fun b => ageYears mn b)
               max_age := (dobOf db pid).map (fun b => ageYears mx b)
               n_dates := (d :: ds).length })

/-- The person-id set of an occurrence summary (`set(df["person_id"])`). -/
def occPersons (rows : List OccRow) : Finset ℕ :=
  (rows.map (fun r => r.person_id)).toFinset

/-- The person ids selected by the `_universe` query (lines 116-124): persons
with a binary sex_at_birth, genomic data, EHR data, and a non-NULL ancestry
prediction. -/
def basePersonList (db : DB) : List ℕ :=
  (db.demographics.filter (fun d =>
    (d.sex_at_birth == "Male" || d.sex_at_birth == "Female") &&
    d.has_srwgs && d.has_ehr_data && d.ancestry_pred.isSome)).map
      (fun d => d.person_id)

/-- Embeds `_universe` (lines 116-124), a set of person ids. -/
def baseUniverse (db : DB) : Finset ℕ :=
  (basePersonList db).toFinset

/-- Embeds `_apply_universe_filters` (lines 127-152). -/
def applyUniverseFilters (db : DB) (univ : Finset ℕ)
    (cond proc excl_cond excl_proc : List ℕ) : Finset ℕ :=
  if cond = [] ∧ proc = [] ∧ excl_cond = [] ∧ excl_proc = [] then univ
  else
    let u1 := if cond ≠ [] then
      univ ∩ occPersons (occurrence db .condition cond) else univ
    let u2 := if proc ≠ [] then
      u1 ∩ occPersons (occurrence db .procedure proc) else u1
    let u3 := if excl_cond ≠ [] then
      u2 \ occPersons (occurrence db .condition excl_cond) else u2
    let u4 := if excl_proc ≠ [] then
      u3 \ occPersons (occurrence db .procedure excl_proc) else u3
    u4

/-- Embeds the `PhenotypeDef` dataclass (lines 12-27).  Ages are rationals. -/
structure PhenotypeDef where
  phenotype_id : String
  phenotype_name : String
  universe_cond : List ℕ
  universe_proc : List ℕ
  universe_excl_cond : List ℕ
  universe_excl_proc : List ℕ
  case_cond : List ℕ
  case_proc : List ℕ
  case_excl_cond : List ℕ
  case_excl_proc : List ℕ
  case_min_age : Option ℚ
  case_max_age : Option ℚ
  ctrl_excl_cond : List ℕ
  ctrl_excl_proc : List ℕ
deriving DecidableEq, Repr

/-- The age-window test of `_get_case_control` (lines 174-179): the lower bound
defaults to `0.0`, the absent upper bound (`float("inf")`) rejects nothing. -/
def agePass (p : PhenotypeDef) (a : ℚ) : Bool :=
  decide (p.case_min_age.getD 0 ≤ a) &&
    (match p.case_max_age with
     | none => true
     | some m => decide (a ≤ m))

/-- The `groupby("person_id").agg(age_at_first_diagnosis=("min_age", "min"))`
of lines 170-173: the least non-missing `min_age` among a person's rows of the
concatenated summaries (pandas `min` skips missing values; a person whose rows
all have missing `min_age` gets a missing aggregate). -/
def minAgeAcross (rows : List OccRow) (pid : ℕ) : Option ℚ :=
  match ((rows.filter (fun r => r.person_id = pid)).filterMap
      (fun r => r.min_age)) with
  | [] => none
  | a :: as => some (as.foldl min a)

/-- The age-filtered raw-candidate set `cases_age` of lines 167-182: persons of
the concatenated case-inclusion summaries whose aggregated first-diagnosis age
exists and passes the window (a missing age fails the pandas comparison). -/
def casesAge (db : DB) (p : PhenotypeDef) : Finset ℕ :=
  let co := occurrence db .condition p.case_cond
  let po := occurrence db .procedure p.case_proc
  (occPersons (co ++ po)).filter (fun pid =>
    (match minAgeAcross (co ++ po) pid with
     | none => false
     | some a => agePass p a) = true)

/-- Embeds `_get_case_control` (lines 155-225), returning `(cases, controls)`. -/
def getCaseControl (db : DB) (univ : Finset ℕ) (p : PhenotypeDef) :
    Finset ℕ × Finset ℕ :=
  let co := occurrence db .condition p.case_cond
  let po := occurrence db .procedure p.case_proc
  let case_ids := occPersons co ∪ occPersons po
  let cases_0 := univ ∩ case_ids
  let controls_0 := univ \ cases_0
  let cases_1 := univ ∩ casesAge db p
  let cases_2 := if p.case_excl_cond ≠ [] then
    cases_1 \ occPersons (occurrence db .condition p.case_excl_cond) else cases_1
  let cases_3 := if p.case_excl_proc ≠ [] then
    cases_2 \ occPersons (occurrence db .procedure p.case_excl_proc) else cases_2
  let controls_1 := if p.ctrl_excl_cond ≠ [] then
    controls_0 \ occPersons (occurrence db .condition p.ctrl_excl_cond) else controls_0
  let controls_2 := if p.ctrl_excl_proc ≠ [] then
    controls_1 \ occPersons (occurrence db .procedure p.ctrl_excl_proc) else controls_1
  (cases_3, controls_2)

/-- Embeds `_add_pheno_column` (lines 228-232) at one person: the column starts
as missing, cases are then set to 1, controls are then set to 0 (so the later
controls assignment wins on overlap). -/
def phenoCell (cases controls : Finset ℕ) (pid : ℕ) : Option ℕ :=
  if pid ∈ controls then some 0
  else if pid ∈ cases then some 1
  else none

/-- Ancestry label used by the counts report (main, lines 264-272): the
person's `ancestry_pred` with NULL replaced by the string `"NA"`. -/
def ancestryOf (db : DB) (pid : ℕ) : String :=
  match db.demographics.find? (fun d => d.person_id = pid) with
  | some d => d.ancestry_pred.getD "NA"
  | none => "NA"

/-- The sorted base-population person ids (`sorted(base_universe)`, line 263). -/
def basePersons (db : DB) : List ℕ :=
  List.insertionSort (· ≤ ·) (basePersonList db).dedup

/-- A count cell of the counts report: either the suppression marker `"<20"` or
a pass-through integer. -/
inductive CountCell where
  | suppressed
  | count (n : ℕ)
deriving DecidableEq, Repr

/-- `"<20" if n < 20 else n` (lines 296-297). -/
def suppress (n : ℕ) : CountCell :=
  if n < 20 then .suppressed else .count n

/-- Size of one ancestry group of `ancestry_df[... .isin(s)]` (lines 286-287,
290-291): base-population persons in `s` carrying ancestry label `anc`, with
absent groups counting 0. -/
def groupCount (db : DB) (s : Finset ℕ) (anc : String) : ℕ :=
  ((basePersons db).filter
    (fun pid => pid ∈ s ∧ ancestryOf db pid = anc)).length

/-- The ancestry labels present in `ancestry_df[... .isin(s)]`. -/
def countLabels (db : DB) (s : Finset ℕ) : List String :=
  ((basePersons db).filter (fun pid => pid ∈ s)).map (ancestryOf db)

/-- One row of the counts report. -/
structure CountRow where
  phenotype_id : String
  ancestry : String
  ncases : CountCell
  ncontrols : CountCell
deriving DecidableEq, Repr

/-- The counts-report block for one phenotype (main, lines 286-299): one row per
ancestry label appearing among the cases or the controls, in ascending label
order, with each count independently suppressed below 20. -/
def countsFor (db : DB) (phenoId : String) (cases controls : Finset ℕ) :
    List CountRow :=
  (List.insertionSort (· ≤ ·)
      (countLabels db cases ++ countLabels db controls).dedup).map (fun anc =>
    { phenotype_id := phenoId
      ancestry := anc
      ncases := suppress (groupCount db cases anc)
      ncontrols := suppress (groupCount db controls anc) })

/-- One phenotype iteration of `main` (lines 275-285): refine the universe, run
the classifier, and return the case and control sets. -/
def runPheno (db : DB) (p : PhenotypeDef) : Finset ℕ × Finset ℕ :=
  getCaseControl db
    (applyUniverseFilters db (baseUniverse db)
      p.universe_cond p.universe_proc p.universe_excl_cond p.universe_excl_proc)
    p

/-- The accumulated outputs of `main` (lines 258-299): the matrix as one row per
sorted base-population person (person id plus one cell per phenotype, in input
order), and the concatenated counts-report rows. -/
def pipeline (db : DB) (phenos : List PhenotypeDef) :
    List (ℕ × List (Option ℕ)) × List CountRow :=
  let results := phenos.map (fun p =>
    let cc := runPheno db p
    (cc, countsFor db p.phenotype_id cc.1 cc.2))
  ((basePersons db).map (fun pid =>
      (pid, results.map (fun r => phenoCell r.1.1 r.1.2 pid))),
   (results.map (fun r => r.2)).flatten)

/-- One matrix cell rendered for the TSV (`na_rep="NA"`, line 304). -/
def renderCell : Option ℕ → String
  | none => "NA"
  | some n => toString n

/-- One count cell rendered for the counts TSV (lines 296-297). -/
def renderCountCell : CountCell → String
  | .suppressed => "<20"
  | .count n => toString n

/-- The matrix TSV (lines 303-304): header then one tab-joined line per person,
rows in ascending person id, columns in input definition order. -/
def renderMatrix (db : DB) (phenos : List PhenotypeDef) : List String :=
  let body := (pipeline db phenos).1
  (String.intercalate "\t" ("person_id" :: phenos.map (fun p => p.phenotype_id)))
    :: body.map (fun row =>
      String.intercalate "\t" (toString row.1 :: row.2.map renderCell))

/-- The counts TSV (lines 305-311). -/
def renderCounts (db : DB) (phenos : List PhenotypeDef) : List String :=
  "phenotype_id\tancestry\tncases\tncontrols"
    :: ((pipeline db phenos).2).map (fun r =>
      String.intercalate "\t"
        [r.phenotype_id, r.ancestry, renderCountCell r.ncases,
         renderCountCell r.ncontrols])

/-- A raw phenotype-definition record as parsed from one JSONL line: `none`
fields are absent JSON keys. -/
structure RawDef where
  phenotype_id : Option String
  phenotype_name : Option String
  universe_cond : Option (List ℕ)
  universe_proc : Option (List ℕ)
  universe_excl_cond : Option (List ℕ)
  universe_excl_proc : Option (List ℕ)
  case_cond : Option (List ℕ)
  case_proc : Option (List ℕ)
  case_excl_cond : Option (List ℕ)
  case_excl_proc : Option (List ℕ)
  case_min_age : Option ℚ
  case_max_age : Option ℚ
  ctrl_excl_cond : Option (List ℕ)
  ctrl_excl_proc : Option (List ℕ)
deriving DecidableEq, Repr

/-- Embeds the per-record body of `_read_jsonl` (lines 36-54): the two required
fields are accessed with `data[...]` and raise `KeyError` when absent; every
other field falls back to its default (`data.get`), with no further
validation — in particular the age window is passed through unchecked. -/
def readDef (r : RawDef) : Except String PhenotypeDef :=
  match r.phenotype_id with
  | none => .error "KeyError: phenotype_id"
  | some pid =>
    match r.phenotype_name with
    | none => .error "KeyError: phenotype_name"
    | some pname =>
      .ok { phenotype_id := pid
            phenotype_name := pname
            universe_cond := r.universe_cond.getD []
            universe_proc := r.universe_proc.getD []
            universe_excl_cond := r.universe_excl_cond.getD []
            universe_excl_proc := r.universe_excl_proc.getD []
            case_cond := r.case_cond.getD []
            case_proc := r.case_proc.getD []
            case_excl_cond := r.case_excl_cond.getD []
            case_excl_proc := r.case_excl_proc.getD []
            case_min_age := r.case_min_age
            case_max_age := r.case_max_age
            ctrl_excl_cond := r.ctrl_excl_cond.getD []
            ctrl_excl_proc := r.ctrl_excl_proc.getD [] }

/-- Embeds `_read_jsonl` (lines 30-55): all records are parsed eagerly in order,
so the first record error aborts the read before anything else runs. -/
def readDefs : List RawDef → Except String (List PhenotypeDef)
  | [] => .ok []
  | r :: rs =>
    match readDef r with
    | .error e => .error e
    | .ok p =>
      match readDefs rs with
      | .error e => .error e
      | .ok ps => .ok (p :: ps)

/-- Embeds `main` (lines 235-312) end to end: read all definitions (any
definition error aborts here, before the store is opened or any cohort is
derived), reject an empty definition list, then derive and render both
outputs. -/
def run (db : DB) (raws : List RawDef) : Except String (List String × List String) :=
  match readDefs raws with
  | .error e => .error e
  | .ok phenos =>
    if phenos = [] then .error "No phenotypes found in JSONL"
    else .ok (renderMatrix db phenos, renderCounts db phenos)

/-! ### Concrete stores and definitions used by witnesses and counterexamples -/

/-- A small store: person 1 has three dated events on two distinct days (one
same-day duplicate), person 2 has no recorded date of birth plus one NULL-dated
event, person 5 has only NULL-dated events. -/
def sampleDB : DB :=
  { demographics := [
      { person_id := 1, dob := some 0, sex_at_birth := "Male", has_srwgs := true,
        has_ehr_data := true, ancestry_pred := some "EUR" },
      { person_id := 2, dob := none, sex_at_birth := "Female", has_srwgs := true,
        has_ehr_data := true, ancestry_pred := some "AFR" },
      { person_id := 5, dob := some 0, sex_at_birth := "Male", has_srwgs := true,
        has_ehr_data := true, ancestry_pred := some "EUR" }],
    condition_occurrence := [
      { person_id := 1, concept_id := 100, date := some 7305 },
      { person_id := 1, concept_id := 100, date := some 7305 },
      { person_id := 1, concept_id := 100, date := some 8000 },
      { person_id := 2, concept_id := 100, date := some 10 },
      { person_id := 2, concept_id := 101, date := none },
      { person_id := 5, concept_id := 100, date := none }],
    procedure_occurrence := [],
    condition_descendants := [
      { ancestor_concept_id := 999, descendant_concept_id := 100 }],
    procedure_descendants := [] }

/-- The store of the repository test `tests/test_createphenotypes.py`: dates in
days from 1980-01-01, so person 1's event (2000-01-01) is 7305 days after their
birth (age 20) and person 3's event (2010-01-01) is 10958 days (age ≈ 30.001). -/
def scenarioDB : DB :=
  { demographics := [
      { person_id := 1, dob := some 0, sex_at_birth := "Male", has_srwgs := true,
        has_ehr_data := true, ancestry_pred := some "EUR" },
      { person_id := 2, dob := some (-3653), sex_at_birth := "Male", has_srwgs := true,
        has_ehr_data := true, ancestry_pred := none },
      { person_id := 3, dob := some 0, sex_at_birth := "Female", has_srwgs := true,
        has_ehr_data := true, ancestry_pred := some "AFR" },
      { person_id := 4, dob := some 1827, sex_at_birth := "Male", has_srwgs := false,
        has_ehr_data := true, ancestry_pred := some "EUR" }],
    condition_occurrence := [
      { person_id := 1, concept_id := 100, date := some 7305 },
      { person_id := 3, concept_id := 100, date := some 10958 }],
    procedure_occurrence := [],
    condition_descendants := [
      { ancestor_concept_id := 999, descendant_concept_id := 100 }],
    procedure_descendants := [] }

/-- The phenotype definition of the repository test: case concept 999 (whose
closure contains 100) with age window [30, 40]. -/
def scenarioPheno : PhenotypeDef :=
  { phenotype_id := "ph1", phenotype_name := "Test Pheno",
    universe_cond := [], universe_proc := [],
    universe_excl_cond := [], universe_excl_proc := [],
    case_cond := [999], case_proc := [],
    case_excl_cond := [], case_excl_proc := [],
    case_min_age := some 30, case_max_age := some 40,
    ctrl_excl_cond := [], ctrl_excl_proc := [] }

/-! ### Spec-side reformulations and filter combinators -/

/-- The per-person `age_at_first` values (`min_age`) of one occurrence summary,
skipping missing values. -/
def firstAges (rows : List OccRow) (pid : ℕ) : List ℚ :=
  (rows.filter (fun r => r.person_id = pid)).filterMap (fun r => r.min_age)

/-- Minimum of a list of rationals, `none` on the empty list. -/
def minQ : List ℚ → Option ℚ
  | [] => none
  | a :: as => some (as.foldl min a)

/-- The universe inclusion-by-condition filter (lines 138-140) as a set
transformer. -/
def incCondFilter (db : DB) (cond : List ℕ) : Finset ℕ → Finset ℕ :=
  fun u => if cond ≠ [] then u ∩ occPersons (occurrence db .condition cond) else u

/-- The universe inclusion-by-procedure filter (lines 141-143) as a set
transformer. -/
def incProcFilter (db : DB) (proc : List ℕ) : Finset ℕ → Finset ℕ :=
  fun u => if proc ≠ [] then u ∩ occPersons (occurrence db .procedure proc) else u

/-- The universe exclusion-by-condition filter (lines 145-147) as a set
transformer. -/
def exclCondFilter (db : DB) (ec : List ℕ) : Finset ℕ → Finset ℕ :=
  fun u => if ec ≠ [] then u \ occPersons (occurrence db .condition ec) else u

/-- The universe exclusion-by-procedure filter (lines 148-150) as a set
transformer. -/
def exclProcFilter (db : DB) (ep : List ℕ) : Finset ℕ → Finset ℕ :=
  fun u => if ep ≠ [] then u \ occPersons (occurrence db .procedure ep) else u

/-- The four universe filters in the fixed source order. -/
def universeFilterChain (db : DB) (cond proc ec ep : List ℕ) :
    List (Finset ℕ → Finset ℕ) :=
  [incCondFilter db cond, incProcFilter db proc,
   exclCondFilter db ec, exclProcFilter db ep]

/-- A phenotype over `sampleDB`: case concept 999, no age window. -/
def samplePheno : PhenotypeDef :=
  { phenotype_id := "ph0", phenotype_name := "Sample Pheno",
    universe_cond := [], universe_proc := [],
    universe_excl_cond := [], universe_excl_proc := [],
    case_cond := [999], case_proc := [],
    case_excl_cond := [], case_excl_proc := [],
    case_min_age := none, case_max_age := none,
    ctrl_excl_cond := [], ctrl_excl_proc := [] }

/-- A store with 44 eligible persons sharing ancestry `"X"`. -/
def bigDB : DB :=
  { demographics := (List.range 44).map (fun i =>
      { person_id := i, dob := some 0, sex_at_birth := "Male", has_srwgs := true,
        has_ehr_data := true, ancestry_pred := some "X" }),
    condition_occurrence := [],
    procedure_occurrence := [],
    condition_descendants := [],
    procedure_descendants := [] }

/-- A raw definition record whose age window is inverted (min 50 > max 10). -/
def rawInverted : RawDef :=
  { phenotype_id := some "p_inv", phenotype_name := some "Inverted window",
    universe_cond := none, universe_proc := none,
    universe_excl_cond := none, universe_excl_proc := none,
    case_cond := some [999], case_proc := none,
    case_excl_cond := none, case_excl_proc := none,
    case_min_age := some 50, case_max_age := some 10,
    ctrl_excl_cond := none, ctrl_excl_proc := none }

/-- A raw definition record missing the required `phenotype_name` field. -/
def rawMissingName : RawDef :=
  { phenotype_id := some "p_noname", phenotype_name := none,
    universe_cond := none, universe_proc := none,
    universe_excl_cond := none, universe_excl_proc := none,
    case_cond := some [999], case_proc := none,
    case_excl_cond := none, case_excl_proc := none,
    case_min_age := none, case_max_age := none,
    ctrl_excl_cond := none, ctrl_excl_proc := none }

/-- `True` exactly when `run` produced output rather than an error. -/
def runSucceeds (r : Except String (List String × List String)) : Bool :=
  match r with
  | .ok _ => true
  | .error _ => false

/-! ### Helper lemmas -/

theorem foldl_min_le_init {α : Type} [LinearOrder α] (l : List α) (d : α) :
    l.foldl min d ≤ d := by
  induction l generalizing d with
  | nil => exact le_refl d
  | cons a as ih => exact le_trans (ih (min d a)) (min_le_left d a)

theorem init_le_foldl_max {α : Type} [LinearOrder α] (l : List α) (d : α) :
    d ≤ l.foldl max d := by
  induction l generalizing d with
  | nil => exact le_refl d
  | cons a as ih => exact le_trans (le_max_left d a) (ih (max d a))

theorem filterMap_map_eq {α β : Type} (l : List α) (f : α → Option β) (g : β → α)
    (h : ∀ a ∈ l, ∃ b, f a = some b ∧ g b = a) : (l.filterMap f).map g = l := by
  induction l with
  | nil => rfl
  | cons a as ih =>
    obtain ⟨b, hb, hg⟩ := h a (List.mem_cons_self a as)
    rw [List.filterMap_cons, hb, List.map_cons, hg,
      ih (fun x hx => h x (List.mem_cons_of_mem a hx))]

theorem mem_datedEvents {events : List Event} {keys : Finset ℕ} {pid : ℕ} {d : ℤ} :
    (pid, d) ∈ datedEvents events keys ↔
      ∃ e ∈ events, e.person_id = pid ∧ e.concept_id ∈ keys ∧ e.date = some d := by
  unfold datedEvents
  rw [List.mem_filterMap]
  constructor
  · rintro ⟨e, he, hf⟩
    by_cases hc : e.concept_id ∈ keys
    · cases hd : e.date with
      | none => rw [if_pos hc, hd] at hf; simp at hf
      | some d' =>
        rw [if_pos hc, hd] at hf
        simp only [Option.map_some', Option.some.injEq, Prod.mk.injEq] at hf
        exact ⟨e, he, hf.1, hc, by rw [hd, hf.2]⟩
    · rw [if_neg hc] at hf; simp at hf
  · rintro ⟨e, he, hpid, hc, hd⟩
    exact ⟨e, he, by rw [if_pos hc, hd]; simp [hpid]⟩

/-- The person ids of the `_occurrence` result are exactly the deduplicated
person ids of the dated qualifying events. -/
theorem occurrence_map_person (db : DB) (kind : EventKind) (ids : List ℕ)
    (h : ids ≠ []) :
    (occurrence db kind ids).map (fun r => r.person_id) =
      ((datedEvents (eventsOf db kind)
        (expandConcepts (closureOf db kind) ids)).map Prod.fst).dedup := by
  unfold occurrence
  rw [if_neg h]
  apply filterMap_map_eq
  intro pid hpid
  have hne : ((((datedEvents (eventsOf db kind)
      (expandConcepts (closureOf db kind) ids)).filter
        (fun q => q.1 = pid)).map Prod.snd).dedup) ≠ [] := by
    rw [Ne, List.dedup_eq_nil]
    rw [List.mem_dedup, List.mem_map] at hpid
    obtain ⟨q, hq, hq1⟩ := hpid
    exact List.ne_nil_of_mem
      (List.mem_map.2 ⟨q, List.mem_filter.2 ⟨hq, by simp [hq1]⟩, rfl⟩)
  cases hds : (((datedEvents (eventsOf db kind)
      (expandConcepts (closureOf db kind) ids)).filter
        (fun q => q.1 = pid)).map Prod.snd).dedup with
  | nil => exact absurd hds hne
  | cons d ds => exact ⟨_, rfl, rfl⟩

/-- Presence in the `_occurrence` summary: exactly the persons with at least one
qualifying event carrying a non-NULL date, for a non-empty concept list. -/
theorem mem_occPersons_occurrence (db : DB) (kind : EventKind) (ids : List ℕ)
    (pid : ℕ) :
    pid ∈ occPersons (occurrence db kind ids) ↔
      ids ≠ [] ∧ ∃ e ∈ eventsOf db kind, e.person_id = pid ∧
        e.concept_id ∈ expandConcepts (closureOf db kind) ids ∧ e.date ≠ none := by
  by_cases h : ids = []
  · subst h
    simp [occPersons, occurrence]
  · rw [occPersons, List.mem_toFinset, occurrence_map_person db kind ids h,
      List.mem_dedup, List.mem_map]
    constructor
    · rintro ⟨q, hq, hq1⟩
      obtain ⟨e, he, hpid, hc, hd⟩ := mem_datedEvents.1 (by
        have : q = (q.1, q.2) := rfl
        rw [this, hq1] at hq
        exact hq)
      exact ⟨h, e, he, hpid, hc, by rw [hd]; exact Option.some_ne_none _⟩
    · rintro ⟨-, e, he, hpid, hc, hd⟩
      cases hd' : e.date with
      | none => exact absurd hd' hd
      | some d =>
        exact ⟨(pid, d), mem_datedEvents.2 ⟨e, he, hpid, hc, hd'⟩, rfl⟩

/-- Structure of one `_occurrence` row: it is built from the non-empty list of
the person's distinct event dates. -/
theorem occurrence_row_spec {db : DB} {kind : EventKind} {ids : List ℕ}
    {row : OccRow} (h : row ∈ occurrence db kind ids) :
    ∃ d ds, (((datedEvents (eventsOf db kind)
        (expandConcepts (closureOf db kind) ids)).filter
          (fun q => q.1 = row.person_id)).map Prod.snd).dedup = d :: ds ∧
      row.min_date = ds.foldl min d ∧
      row.max_date = ds.foldl max d ∧
      row.n_dates = (d :: ds).length ∧
      row.min_age = (dobOf db row.person_id).map (fun b => ageYears row.min_date b) ∧
      row.max_age = (dobOf db row.person_id).map (fun b => ageYears row.max_date b) := by
  by_cases hids : ids = []
  · subst hids; simp [occurrence] at h
  · unfold occurrence at h
    rw [if_neg hids] at h
    rw [List.mem_filterMap] at h
    obtain ⟨pid, _, hf⟩ := h
    cases hds : (((datedEvents (eventsOf db kind)
        (expandConcepts (closureOf db kind) ids)).filter
          (fun q => q.1 = pid)).map Prod.snd).dedup with
    | nil => rw [hds] at hf; exact absurd hf (by simp)
    | cons d ds =>
      rw [hds] at hf
      simp only [Option.some.injEq] at hf
      subst hf
      exact ⟨d, ds, hds, rfl, rfl, rfl, rfl, rfl⟩

theorem occPersons_append (a b : List OccRow) :
    occPersons (a ++ b) = occPersons a ∪ occPersons b := by
  simp [occPersons, List.toFinset_append]

/-- Membership characterization of `_apply_universe_filters`. -/
theorem mem_applyUniverseFilters (db : DB) (u : Finset ℕ)
    (cond proc ec ep : List ℕ) (x : ℕ) :
    x ∈ applyUniverseFilters db u cond proc ec ep ↔ x ∈ u ∧
      (cond ≠ [] → x ∈ occPersons (occurrence db .condition cond)) ∧
      (proc ≠ [] → x ∈ occPersons (occurrence db .procedure proc)) ∧
      (ec ≠ [] → x ∉ occPersons (occurrence db .condition ec)) ∧
      (ep ≠ [] → x ∉ occPersons (occurrence db .procedure ep)) := by
  by_cases h1 : cond = [] <;> by_cases h2 : proc = [] <;>
    by_cases h3 : ec = [] <;> by_cases h4 : ep = [] <;>
    simp [applyUniverseFilters, h1, h2, h3, h4, Finset.mem_inter,
      Finset.mem_sdiff] <;> tauto

theorem applyUniverseFilters_subset (db : DB) (u : Finset ℕ)
    (cond proc ec ep : List ℕ) :
    applyUniverseFilters db u cond proc ec ep ⊆ u :=
  fun x hx => ((mem_applyUniverseFilters db u cond proc ec ep x).1 hx).1

/-- Membership characterization of the age-filtered candidate set. -/
theorem mem_casesAge (db : DB) (p : PhenotypeDef) (pid : ℕ) :
    pid ∈ casesAge db p ↔
      pid ∈ occPersons (occurrence db .condition p.case_cond
          ++ occurrence db .procedure p.case_proc) ∧
      ∃ a, minAgeAcross (occurrence db .condition p.case_cond
          ++ occurrence db .procedure p.case_proc) pid = some a ∧
        agePass p a = true := by
  unfold casesAge
  rw [Finset.mem_filter]
  constructor
  · rintro ⟨hm, hb⟩
    refine ⟨hm, ?_⟩
    cases ha : minAgeAcross (occurrence db .condition p.case_cond
        ++ occurrence db .procedure p.case_proc) pid with
    | none => rw [ha] at hb; simp at hb
    | some a => rw [ha] at hb; exact ⟨a, rfl, hb⟩
  · rintro ⟨hm, a, ha, hp⟩
    exact ⟨hm, by rw [ha]; exact hp⟩

theorem casesAge_subset_candidates (db : DB) (p : PhenotypeDef) :
    casesAge db p ⊆ occPersons (occurrence db .condition p.case_cond)
      ∪ occPersons (occurrence db .procedure p.case_proc) := by
  intro x hx
  rw [← occPersons_append]
  exact ((mem_casesAge db p x).1 hx).1

/-- The case set of `_get_case_control` is contained in
`universe ∩ cases_age`. -/
theorem getCaseControl_fst_subset (db : DB) (u : Finset ℕ) (p : PhenotypeDef) :
    (getCaseControl db u p).1 ⊆ u ∩ casesAge db p := by
  unfold getCaseControl
  dsimp only
  split_ifs <;> intro x hx <;>
    simp only [Finset.mem_sdiff, Finset.mem_inter] at hx ⊢ <;> tauto

/-- The control set of `_get_case_control` is contained in
`universe \ (universe ∩ raw candidates)`. -/
theorem getCaseControl_snd_subset (db : DB) (u : Finset ℕ) (p : PhenotypeDef) :
    (getCaseControl db u p).2 ⊆
      u \ (u ∩ (occPersons (occurrence db .condition p.case_cond)
        ∪ occPersons (occurrence db .procedure p.case_proc))) := by
  unfold getCaseControl
  dsimp only
  split_ifs <;> intro x hx <;>
    simp only [Finset.mem_sdiff, Finset.mem_inter] at hx ⊢ <;> tauto

/-- The boolean age-window test unfolded to the inclusive-bounds proposition. -/
theorem agePass_iff (p : PhenotypeDef) (a : ℚ) :
    agePass p a = true ↔
      p.case_min_age.getD 0 ≤ a ∧ ∀ m ∈ p.case_max_age, a ≤ m := by
  unfold agePass
  cases p.case_max_age <;> simp

/-- The pandas `groupby` minimum over the concatenated summaries equals the
minimum of the per-summary age lists. -/
theorem minAgeAcross_append (co po : List OccRow) (pid : ℕ) :
    minAgeAcross (co ++ po) pid = minQ (firstAges co pid ++ firstAges po pid) := by
  unfold minAgeAcross minQ firstAges
  rw [List.filter_append, List.filterMap_append]

theorem mem_basePersons (db : DB) (x : ℕ) :
    x ∈ basePersons db ↔ x ∈ baseUniverse db := by
  unfold basePersons baseUniverse
  rw [(List.perm_insertionSort _ _).mem_iff, List.mem_dedup, List.mem_toFinset]

theorem nodup_basePersons (db : DB) : (basePersons db).Nodup :=
  ((List.perm_insertionSort _ _).nodup_iff).2 (List.nodup_dedup _)

/-- For a person set inside the base population, the list-based group size of
`main` equals the cardinality of the ancestry stratum. -/
theorem groupCount_eq_card (db : DB) (s : Finset ℕ) (anc : String)
    (hs : s ⊆ baseUniverse db) :
    groupCount db s anc = (s.filter (fun q => ancestryOf db q = anc)).card := by
  unfold groupCount
  have hnd : ((basePersons db).filter
      (fun pid => pid ∈ s ∧ ancestryOf db pid = anc)).Nodup :=
    (nodup_basePersons db).filter _
  rw [← List.toFinset_card_of_nodup hnd]
  congr 1
  ext x
  simp only [List.mem_toFinset, List.mem_filter, Finset.mem_filter,
    decide_eq_true_eq]
  constructor
  · rintro ⟨-, hxs, ha⟩
    exact ⟨hxs, ha⟩
  · rintro ⟨hxs, ha⟩
    exact ⟨(mem_basePersons db x).2 (hs hxs), hxs, ha⟩

/-- For a person set inside the base population, the ancestry labels seen by
the counts report are the image of the set under `ancestryOf`. -/
theorem countLabels_toFinset (db : DB) (s : Finset ℕ)
    (hs : s ⊆ baseUniverse db) :
    (countLabels db s).toFinset = s.image (ancestryOf db) := by
  ext a
  simp only [countLabels, List.mem_toFinset, List.mem_map, List.mem_filter,
    Finset.mem_image, decide_eq_true_eq]
  constructor
  · rintro ⟨x, ⟨-, hxs⟩, rfl⟩
    exact ⟨x, hxs, rfl⟩
  · rintro ⟨x, hxs, rfl⟩
    exact ⟨x, ⟨(mem_basePersons db x).2 (hs hxs), hxs⟩, rfl⟩

theorem suppress_suppressed_iff (n : ℕ) :
    suppress n = CountCell.suppressed ↔ n < 20 := by
  unfold suppress
  split_ifs with h
  · simp [h]
  · simp [h]

theorem suppress_count {n m : ℕ} (h : suppress n = CountCell.count m) :
    m = n ∧ 20 ≤ n := by
  unfold suppress at h
  split_ifs at h with hlt
  have hnm : n = m := CountCell.count.inj h
  exact ⟨hnm.symm, Nat.not_lt.1 hlt⟩

/-- Folding the four-filter chain in source order is exactly
`_apply_universe_filters`. -/
theorem foldl_universeFilterChain (db : DB) (u : Finset ℕ)
    (cond proc ec ep : List ℕ) :
    (universeFilterChain db cond proc ec ep).foldl (fun s f => f s) u =
      applyUniverseFilters db u cond proc ec ep := by
  by_cases h1 : cond = [] <;> by_cases h2 : proc = [] <;>
    by_cases h3 : ec = [] <;> by_cases h4 : ep = [] <;>
    simp [universeFilterChain, incCondFilter, incProcFilter, exclCondFilter,
      exclProcFilter, applyUniverseFilters, h1, h2, h3, h4]

/-- Every universe filter is a `Finset.filter` by some decidable predicate. -/
theorem universeFilterChain_shape (db : DB) (cond proc ec ep : List ℕ) :
    ∀ f ∈ universeFilterChain db cond proc ec ep,
      ∃ (P : ℕ → Prop) (inst : DecidablePred P),
        f = fun u => @Finset.filter ℕ P inst u := by
  intro f hf
  have hinter : ∀ (A : Finset ℕ), ∃ (P : ℕ → Prop) (inst : DecidablePred P),
      (fun (u : Finset ℕ) => u ∩ A) = fun u => @Finset.filter ℕ P inst u := by
    intro A
    refine ⟨fun x => x ∈ A, inferInstance, funext fun u => ?_⟩
    ext x
    simp [Finset.mem_filter, Finset.mem_inter, and_comm]
  have hdiff : ∀ (A : Finset ℕ), ∃ (P : ℕ → Prop) (inst : DecidablePred P),
      (fun (u : Finset ℕ) => u \ A) = fun u => @Finset.filter ℕ P inst u := by
    intro A
    refine ⟨fun x => x ∉ A, inferInstance, funext fun u => ?_⟩
    ext x
    simp [Finset.mem_filter, Finset.mem_sdiff]
  have hid : ∃ (P : ℕ → Prop) (inst : DecidablePred P),
      (fun (u : Finset ℕ) => u) = fun u => @Finset.filter ℕ P inst u := by
    refine ⟨fun _ => True, inferInstance, funext fun u => ?_⟩
    simp
  simp only [universeFilterChain, List.mem_cons, List.not_mem_nil,
    or_false] at hf
  rcases hf with rfl | rfl | rfl | rfl
  · unfold incCondFilter
    split_ifs
    · exact hinter _
    · exact hid
  · unfold incProcFilter
    split_ifs
    · exact hinter _
    · exact hid
  · unfold exclCondFilter
    split_ifs
    · exact hdiff _
    · exact hid
  · unfold exclProcFilter
    split_ifs
    · exact hdiff _
    · exact hid

/-- Any two universe filters commute as set transformers. -/
theorem universeFilterChain_comm (db : DB) (cond proc ec ep : List ℕ) :
    ∀ f ∈ universeFilterChain db cond proc ec ep,
      ∀ g ∈ universeFilterChain db cond proc ec ep,
        ∀ z : Finset ℕ, g (f z) = f (g z) := by
  intro f hf g hg z
  obtain ⟨P, instP, rfl⟩ := universeFilterChain_shape db cond proc ec ep f hf
  obtain ⟨Q, instQ, rfl⟩ := universeFilterChain_shape db cond proc ec ep g hg
  ext x
  simp only [Finset.mem_filter]
  tauto

/-! ### Claim theorems -/

/-- C1: for every phenotype definition, the cases and controls returned by
`_get_case_control` are disjoint, their union is contained in the refined
universe produced by `_apply_universe_filters`, and that universe is contained
in the base eligible population. -/
theorem cases_controls_disjoint_and_contained (db : DB) (p : PhenotypeDef) :
    (runPheno db p).1 ∩ (runPheno db p).2 = ∅ ∧
    (runPheno db p).1 ∪ (runPheno db p).2 ⊆
      applyUniverseFilters db (baseUniverse db) p.universe_cond p.universe_proc
        p.universe_excl_cond p.universe_excl_proc ∧
    applyUniverseFilters db (baseUniverse db) p.universe_cond p.universe_proc
      p.universe_excl_cond p.universe_excl_proc ⊆ baseUniverse db := by
  unfold runPheno
  set u := applyUniverseFilters db (baseUniverse db) p.universe_cond
    p.universe_proc p.universe_excl_cond p.universe_excl_proc with hu
  have hc := getCaseControl_fst_subset db u p
  have ht := getCaseControl_snd_subset db u p
  refine ⟨?_, ?_, applyUniverseFilters_subset db (baseUniverse db) _ _ _ _⟩
  · rw [Finset.eq_empty_iff_forall_not_mem]
    intro x hx
    rw [Finset.mem_inter] at hx
    have h1 := Finset.mem_inter.1 (hc hx.1)
    have h2 := Finset.mem_sdiff.1 (ht hx.2)
    exact h2.2 (Finset.mem_inter.2 ⟨h1.1, casesAge_subset_candidates db p h1.2⟩)
  · intro x hx
    rcases Finset.mem_union.1 hx with hx | hx
    · exact (Finset.mem_inter.1 (hc hx)).1
    · exact (Finset.mem_sdiff.1 (ht hx)).1

/-- C1 witness: in the repository-test scenario the derived case and control
sets are disjoint and contained in the refined universe. -/
theorem cases_controls_disjoint_and_contained_witness :
    (runPheno scenarioDB scenarioPheno).1 ∩
      (runPheno scenarioDB scenarioPheno).2 = ∅ ∧
    (3 : ℕ) ∈ baseUniverse scenarioDB :=
  ⟨(cases_controls_disjoint_and_contained scenarioDB scenarioPheno).1,
   (cases_controls_disjoint_and_contained scenarioDB scenarioPheno).2.2
     ((cases_controls_disjoint_and_contained scenarioDB scenarioPheno).2.1
       (by decide))⟩

/-- C5: concept hierarchy expansion returns exactly the union of the roots and
their recorded descendants; the empty root list expands to the empty set; and
a root absent from the closure table contributes only itself. -/
theorem concept_expansion_spec (closure : List ClosureRow) (roots : List ℕ) :
    (∀ x, x ∈ expandConcepts closure roots ↔
      x ∈ roots ∨ ∃ r ∈ closure, r.ancestor_concept_id ∈ roots ∧
        r.descendant_concept_id = x) ∧
    expandConcepts closure ([] : List ℕ) = ∅ ∧
    (∀ x, (∀ r ∈ closure, r.ancestor_concept_id ≠ x) →
      expandConcepts closure [x] = {x}) := by
  have hmem : ∀ (rs : List ℕ) (x : ℕ), x ∈ expandConcepts closure rs ↔
      x ∈ rs ∨ ∃ r ∈ closure, r.ancestor_concept_id ∈ rs ∧
        r.descendant_concept_id = x := by
    intro rs x
    by_cases h : rs = []
    · subst h
      simp [expandConcepts, descendants]
    · simp only [expandConcepts, descendants, if_neg h, Finset.mem_union,
        List.mem_toFinset, List.mem_map, List.mem_filter, decide_eq_true_eq]
      constructor
      · rintro (hx | ⟨r, ⟨hr, hra⟩, hrd⟩)
        · exact Or.inl hx
        · exact Or.inr ⟨r, hr, hra, hrd⟩
      · rintro (hx | ⟨r, hr, hra, hrd⟩)
        · exact Or.inl hx
        · exact Or.inr ⟨r, ⟨hr, hra⟩, hrd⟩
  refine ⟨hmem roots, ?_, ?_⟩
  · ext x
    rw [hmem]
    simp
  · intro x hx
    ext y
    rw [hmem]
    simp only [List.mem_singleton, Finset.mem_singleton]
    constructor
    · rintro (rfl | ⟨r, hr, hra, -⟩)
      · rfl
      · exact absurd hra (hx r hr)
    · rintro rfl
      exact Or.inl rfl

/-- C5 witness: a concept id absent from the closure table expands to itself
alone. -/
theorem concept_expansion_spec_witness :
    expandConcepts [{ ancestor_concept_id := 999, descendant_concept_id := 100 }]
      [777] = {777} :=
  (concept_expansion_spec
    [{ ancestor_concept_id := 999, descendant_concept_id := 100 }] [777]).2.2
    777 (by decide)

/-- C6: `_occurrence` yields no rows for an empty concept list; every row has
`min_date ≤ max_date` and an `n_dates` equal to the number of distinct event
dates of that person (same-day duplicates collapse); a person without a date of
birth gets missing ages; and any person with a dated qualifying event appears
in the summary regardless of date of birth. -/
theorem occurrence_aggregator_spec (db : DB) (kind : EventKind) (ids : List ℕ) :
    occurrence db kind ([] : List ℕ) = [] ∧
    (∀ row ∈ occurrence db kind ids,
      row.min_date ≤ row.max_date ∧
      row.n_dates = (((datedEvents (eventsOf db kind)
          (expandConcepts (closureOf db kind) ids)).filter
            (fun q => q.1 = row.person_id)).map Prod.snd).toFinset.card ∧
      (dobOf db row.person_id = none → row.min_age = none ∧ row.max_age = none)) ∧
    (∀ pid, ids ≠ [] →
      (∃ e ∈ eventsOf db kind, e.person_id = pid ∧
        e.concept_id ∈ expandConcepts (closureOf db kind) ids ∧ e.date ≠ none) →
      ∃ row ∈ occurrence db kind ids, row.person_id = pid) := by
  refine ⟨by simp [occurrence], ?_, ?_⟩
  · intro row hrow
    obtain ⟨d, ds, hds, hmin, hmax, hn, hmina, hmaxa⟩ := occurrence_row_spec hrow
    refine ⟨?_, ?_, ?_⟩
    · rw [hmin, hmax]
      exact le_trans (foldl_min_le_init ds d) (init_le_foldl_max ds d)
    · rw [hn, List.card_toFinset, hds]
    · intro hdob
      rw [hmina, hmaxa, hdob]
      exact ⟨rfl, rfl⟩
  · intro pid hne hex
    have hmem := (mem_occPersons_occurrence db kind ids pid).2 ⟨hne, hex⟩
    rw [occPersons, List.mem_toFinset, List.mem_map] at hmem
    obtain ⟨row, hrow, hpid⟩ := hmem
    exact ⟨row, hrow, hpid⟩

/-- C6 witness: in `sampleDB`, person 1 has three condition events on two
distinct days, and the summary row for person 1 satisfies the aggregator
contract (dates ordered, distinct-date count 2). -/
theorem occurrence_aggregator_spec_witness :
    (7305 : ℤ) ≤ (8000 : ℤ) ∧
    (2 : ℕ) = (((datedEvents (eventsOf sampleDB .condition)
        (expandConcepts (closureOf sampleDB .condition) [999])).filter
          (fun q => q.1 = 1)).map Prod.snd).toFinset.card ∧
    (dobOf sampleDB 1 = none → (some (20 : ℚ) : Option ℚ) = none ∧
      (some (ageYears 8000 0) : Option ℚ) = none) :=
  (occurrence_aggregator_spec sampleDB .condition [999]).2.1
    { person_id := 1, min_date := 7305, max_date := 8000,
      min_age := some 20, max_age := some (ageYears 8000 0), n_dates := 2 }
    (by decide)

/-- C10: a person appears in the `_occurrence` summary iff the concept list is
non-empty and the person has a qualifying event with a non-NULL date; hence a
person all of whose qualifying events have NULL dates is invisible to every
presence/absence filter built on the summary. -/
theorem null_dated_events_invisible (db : DB) (kind : EventKind) (ids : List ℕ)
    (pid : ℕ) :
    (pid ∈ occPersons (occurrence db kind ids) ↔
      ids ≠ [] ∧ ∃ e ∈ eventsOf db kind, e.person_id = pid ∧
        e.concept_id ∈ expandConcepts (closureOf db kind) ids ∧ e.date ≠ none) ∧
    ((∀ e ∈ eventsOf db kind, e.person_id = pid → e.date = none) →
      pid ∉ occPersons (occurrence db kind ids)) := by
  refine ⟨mem_occPersons_occurrence db kind ids pid, ?_⟩
  intro hall hmem
  obtain ⟨-, e, he, hpid, -, hd⟩ := (mem_occPersons_occurrence db kind ids pid).1 hmem
  exact hd (hall e he hpid)

/-- C10 witness: person 5 of `sampleDB` has a matching condition event whose
date is NULL, and is absent from the occurrence summary. -/
theorem null_dated_events_invisible_witness :
    (5 : ℕ) ∉ occPersons (occurrence sampleDB .condition [999]) :=
  (null_dated_events_invisible sampleDB .condition [999] 5).2 (by decide)

/-- C4: the classifier's aggregated `age_at_first_diagnosis` is the minimum of
the `age_at_first` values across the condition and procedure summaries; a raw
candidate is retained by the age filter iff that minimum exists and lies in the
inclusive `[min_age, max_age]` window (lower bound defaulting to 0, absent
upper bound unbounded); and a candidate with a missing age is excluded. -/
theorem age_filter_spec (db : DB) (p : PhenotypeDef) (pid : ℕ) :
    minAgeAcross (occurrence db .condition p.case_cond
        ++ occurrence db .procedure p.case_proc) pid =
      minQ (firstAges (occurrence db .condition p.case_cond) pid
        ++ firstAges (occurrence db .procedure p.case_proc) pid) ∧
    (pid ∈ casesAge db p ↔
      pid ∈ occPersons (occurrence db .condition p.case_cond)
        ∪ occPersons (occurrence db .procedure p.case_proc) ∧
      ∃ a, minAgeAcross (occurrence db .condition p.case_cond
          ++ occurrence db .procedure p.case_proc) pid = some a ∧
        p.case_min_age.getD 0 ≤ a ∧ ∀ m ∈ p.case_max_age, a ≤ m) ∧
    (minAgeAcross (occurrence db .condition p.case_cond
        ++ occurrence db .procedure p.case_proc) pid = none →
      pid ∉ casesAge db p) := by
  refine ⟨minAgeAcross_append _ _ _, ?_, ?_⟩
  · rw [mem_casesAge, occPersons_append]
    constructor
    · rintro ⟨hm, a, ha, hp⟩
      exact ⟨hm, a, ha, (agePass_iff p a).1 hp⟩
    · rintro ⟨hm, a, ha, hp⟩
      exact ⟨hm, a, ha, (agePass_iff p a).2 hp⟩
  · intro hnone hmem
    obtain ⟨-, a, ha, -⟩ := (mem_casesAge db p pid).1 hmem
    rw [hnone] at ha
    exact Option.noConfusion ha

/-- C4 witness: person 2 of `sampleDB` is a raw candidate but has no recorded
date of birth, so the aggregated age is missing and the age filter excludes
them. -/
theorem age_filter_spec_witness :
    (2 : ℕ) ∉ casesAge sampleDB samplePheno :=
  (age_filter_spec sampleDB samplePheno 2).2.2 (by decide)

/-- C7: `_apply_universe_filters` with all four lists empty is the identity;
membership in the refined universe is the population membership conjoined with
each non-empty filter's inclusion/exclusion condition; and folding the four
filters in any order yields the same set. -/
theorem universe_filters_spec (db : DB) (u : Finset ℕ)
    (cond proc ec ep : List ℕ) :
    applyUniverseFilters db u [] [] [] [] = u ∧
    (∀ x, x ∈ applyUniverseFilters db u cond proc ec ep ↔ x ∈ u ∧
      (cond ≠ [] → x ∈ occPersons (occurrence db .condition cond)) ∧
      (proc ≠ [] → x ∈ occPersons (occurrence db .procedure proc)) ∧
      (ec ≠ [] → x ∉ occPersons (occurrence db .condition ec)) ∧
      (ep ≠ [] → x ∉ occPersons (occurrence db .procedure ep))) ∧
    (∀ l : List (Finset ℕ → Finset ℕ),
      l.Perm (universeFilterChain db cond proc ec ep) →
      l.foldl (fun s f => f s) u = applyUniverseFilters db u cond proc ec ep) := by
  refine ⟨by simp [applyUniverseFilters],
    mem_applyUniverseFilters db u cond proc ec ep, ?_⟩
  intro l hl
  rw [← foldl_universeFilterChain db u cond proc ec ep]
  have hcomm : ∀ x ∈ l, ∀ y ∈ l, ∀ z : Finset ℕ, y (x z) = x (y z) := by
    intro x hx y hy z
    exact universeFilterChain_comm db cond proc ec ep x (hl.subset hx)
      y (hl.subset hy) z
  exact hl.foldl_eq' (fun x hx y hy z => hcomm x hx y hy z) u

/-- C7 witness: applying the four filters of a concrete phenotype in reversed
order produces the same refined universe as the source order. -/
theorem universe_filters_spec_witness :
    List.foldl (fun s f => f s) (baseUniverse scenarioDB)
      (universeFilterChain scenarioDB [999] [] [100] []).reverse =
    applyUniverseFilters scenarioDB (baseUniverse scenarioDB) [999] [] [100] [] :=
  (universe_filters_spec scenarioDB (baseUniverse scenarioDB)
    [999] [] [100] []).2.2 _ (List.reverse_perm _)

/-- C2 counterexample: in the repository-test scenario, person 1 belongs to the
refined universe and is a raw case candidate whose earliest qualifying age (20)
lies outside the window [30, 40], yet the matrix cell is missing, not the
control value 0. -/
theorem age_filtered_candidate_cell_missing :
    1 ∈ applyUniverseFilters scenarioDB (baseUniverse scenarioDB)
      scenarioPheno.universe_cond scenarioPheno.universe_proc
      scenarioPheno.universe_excl_cond scenarioPheno.universe_excl_proc ∧
    1 ∈ occPersons (occurrence scenarioDB .condition scenarioPheno.case_cond) ∧
    minAgeAcross (occurrence scenarioDB .condition scenarioPheno.case_cond
      ++ occurrence scenarioDB .procedure scenarioPheno.case_proc) 1 =
        some 20 ∧
    agePass scenarioPheno 20 = false ∧
    phenoCell (runPheno scenarioDB scenarioPheno).1
      (runPheno scenarioDB scenarioPheno).2 1 = none ∧
    phenoCell (runPheno scenarioDB scenarioPheno).1
      (runPheno scenarioDB scenarioPheno).2 1 ≠ some 0 := by
  decide

/-- C2 (amended): every matrix cell is 1, 0 or missing; a person outside the
refined universe always gets a missing cell; and a raw case candidate whose
aggregated first-diagnosis age fails the window (or is missing) is neither case
nor control, so the cell is missing as well. -/
theorem matrix_cell_trichotomy (db : DB) (p : PhenotypeDef) (pid : ℕ) :
    (phenoCell (runPheno db p).1 (runPheno db p).2 pid = some 1 ∨
     phenoCell (runPheno db p).1 (runPheno db p).2 pid = some 0 ∨
     phenoCell (runPheno db p).1 (runPheno db p).2 pid = none) ∧
    (pid ∉ applyUniverseFilters db (baseUniverse db) p.universe_cond
        p.universe_proc p.universe_excl_cond p.universe_excl_proc →
      phenoCell (runPheno db p).1 (runPheno db p).2 pid = none) ∧
    (pid ∈ occPersons (occurrence db .condition p.case_cond)
        ∪ occPersons (occurrence db .procedure p.case_proc) →
      (∀ a ∈ minAgeAcross (occurrence db .condition p.case_cond
          ++ occurrence db .procedure p.case_proc) pid,
        ¬(p.case_min_age.getD 0 ≤ a ∧ ∀ m ∈ p.case_max_age, a ≤ m)) →
      phenoCell (runPheno db p).1 (runPheno db p).2 pid = none) := by
  unfold runPheno
  set u := applyUniverseFilters db (baseUniverse db) p.universe_cond
    p.universe_proc p.universe_excl_cond p.universe_excl_proc with hu
  have hc := getCaseControl_fst_subset db u p
  have ht := getCaseControl_snd_subset db u p
  refine ⟨?_, ?_, ?_⟩
  · unfold phenoCell
    split_ifs <;> tauto
  · intro hout
    unfold phenoCell
    rw [if_neg (fun hmem => hout (Finset.mem_sdiff.1 (ht hmem)).1),
      if_neg (fun hmem => hout (Finset.mem_inter.1 (hc hmem)).1)]
  · intro hcand hfail
    have hnotage : pid ∉ casesAge db p := by
      intro hage
      obtain ⟨-, a, ha, hp⟩ := (mem_casesAge db p pid).1 hage
      exact hfail a (Option.mem_def.2 ha) ((agePass_iff p a).1 hp)
    unfold phenoCell
    rw [if_neg, if_neg]
    · intro hmem
      exact hnotage (Finset.mem_inter.1 (hc hmem)).2
    · intro hmem
      have h2 := Finset.mem_sdiff.1 (ht hmem)
      exact h2.2 (Finset.mem_inter.2 ⟨h2.1, hcand⟩)

/-- C2 (amended) witness: in the repository-test scenario, the age-failing
candidate person 1 receives a missing cell. -/
theorem matrix_cell_trichotomy_witness :
    phenoCell (runPheno scenarioDB scenarioPheno).1
      (runPheno scenarioDB scenarioPheno).2 1 = none :=
  (matrix_cell_trichotomy scenarioDB scenarioPheno 1).2.2 (by decide)
    (by
      intro a ha
      rw [Option.mem_def] at ha
      have h20 : minAgeAcross (occurrence scenarioDB .condition
          scenarioPheno.case_cond
          ++ occurrence scenarioDB .procedure scenarioPheno.case_proc) 1 =
          some 20 := by decide
      rw [h20, Option.some.injEq] at ha
      subst ha
      rintro ⟨hge, -⟩
      exact absurd hge (by decide))

/-- C3: the stratified counts block has exactly one row per ancestry label
appearing among the cases or the controls, sorted ascending by label; each of
the two counts is independently replaced by the suppression marker when below
20 and passes through as the integer otherwise, and a suppressed cell never
reveals the underlying integer. -/
theorem counts_report_spec (db : DB) (phenoId : String)
    (cases controls : Finset ℕ) (hc : cases ⊆ baseUniverse db)
    (ht : controls ⊆ baseUniverse db) :
    ((countsFor db phenoId cases controls).map (fun r => r.ancestry)).Sorted
        (· ≤ ·) ∧
    ((countsFor db phenoId cases controls).map (fun r => r.ancestry)).Nodup ∧
    ((countsFor db phenoId cases controls).map (fun r => r.ancestry)).toFinset =
      cases.image (ancestryOf db) ∪ controls.image (ancestryOf db) ∧
    (∀ r ∈ countsFor db phenoId cases controls,
      r.phenotype_id = phenoId ∧
      (r.ncases = CountCell.suppressed ↔
        (cases.filter (fun q => ancestryOf db q = r.ancestry)).card < 20) ∧
      (∀ n, r.ncases = CountCell.count n →
        n = (cases.filter (fun q => ancestryOf db q = r.ancestry)).card ∧
          20 ≤ n) ∧
      (r.ncontrols = CountCell.suppressed ↔
        (controls.filter (fun q => ancestryOf db q = r.ancestry)).card < 20) ∧
      (∀ n, r.ncontrols = CountCell.count n →
        n = (controls.filter (fun q => ancestryOf db q = r.ancestry)).card ∧
          20 ≤ n)) := by
  have hmap : (countsFor db phenoId cases controls).map (fun r => r.ancestry) =
      List.insertionSort (· ≤ ·)
        ((countLabels db cases ++ countLabels db controls).dedup) := by
    unfold countsFor
    rw [List.map_map]
    exact List.map_id _
  refine ⟨?_, ?_, ?_, ?_⟩
  · rw [hmap]
    exact List.sorted_insertionSort _ _
  · rw [hmap]
    exact ((List.perm_insertionSort _ _).nodup_iff).2 (List.nodup_dedup _)
  · rw [hmap]
    ext a
    rw [List.mem_toFinset, (List.perm_insertionSort _ _).mem_iff,
      List.mem_dedup, List.mem_append, Finset.mem_union]
    simp only [← List.mem_toFinset]
    rw [countLabels_toFinset db cases hc, countLabels_toFinset db controls ht]
  · intro r hr
    obtain ⟨anc, -, rfl⟩ := List.mem_map.1 hr
    have hgc := groupCount_eq_card db cases anc hc
    have hgt := groupCount_eq_card db controls anc ht
    refine ⟨rfl, ?_, ?_, ?_, ?_⟩
    · show suppress (groupCount db cases anc) = CountCell.suppressed ↔ _
      rw [suppress_suppressed_iff, hgc]
    · intro n hn
      obtain ⟨h1, h2⟩ := suppress_count hn
      exact ⟨h1.trans hgc, by omega⟩
    · show suppress (groupCount db controls anc) = CountCell.suppressed ↔ _
      rw [suppress_suppressed_iff, hgt]
    · intro n hn
      obtain ⟨h1, h2⟩ := suppress_count hn
      exact ⟨h1.trans hgt, by omega⟩

/-- C3 witness: a stratum with exactly 19 cases and 25 controls yields the
suppression marker for cases and the integer 25 for controls, and the general
per-row suppression contract holds on that concrete store. -/
theorem counts_report_spec_witness :
    countsFor bigDB "ph" (Finset.range 19) (Finset.range 44 \ Finset.range 19) =
      [{ phenotype_id := "ph", ancestry := "X",
         ncases := CountCell.suppressed, ncontrols := CountCell.count 25 }] ∧
    (∀ r ∈ countsFor bigDB "ph" (Finset.range 19)
        (Finset.range 44 \ Finset.range 19),
      r.phenotype_id = "ph" ∧
      (r.ncases = CountCell.suppressed ↔
        ((Finset.range 19).filter
          (fun q => ancestryOf bigDB q = r.ancestry)).card < 20) ∧
      (∀ n, r.ncases = CountCell.count n →
        n = ((Finset.range 19).filter
          (fun q => ancestryOf bigDB q = r.ancestry)).card ∧ 20 ≤ n) ∧
      (r.ncontrols = CountCell.suppressed ↔
        (((Finset.range 44 \ Finset.range 19)).filter
          (fun q => ancestryOf bigDB q = r.ancestry)).card < 20) ∧
      (∀ n, r.ncontrols = CountCell.count n →
        n = (((Finset.range 44 \ Finset.range 19)).filter
          (fun q => ancestryOf bigDB q = r.ancestry)).card ∧ 20 ≤ n)) :=
  ⟨by decide,
   (counts_report_spec bigDB "ph" (Finset.range 19)
     (Finset.range 44 \ Finset.range 19) (by decide) (by decide)).2.2.2⟩

/-- C8 counterexample: a definition with an inverted age window (min 50 >
max 10) is not rejected — the whole run completes and produces output. -/
theorem inverted_age_window_not_rejected :
    rawInverted.case_min_age = some 50 ∧
    rawInverted.case_max_age = some 10 ∧
    ¬((50 : ℚ) ≤ 10) ∧
    runSucceeds (run scenarioDB [rawInverted]) = true := by
  decide

/-- C8 (amended): a record missing a required field makes the whole definition
read fail, and hence the run fails with that very error, before any cohort
derivation (the error does not depend on the store); but records with both
required fields present are accepted with the age window passed through
unvalidated, so an inverted window is not a load-time error. -/
theorem definition_errors_abort_loading (db : DB) (raws : List RawDef) :
    ((∃ r ∈ raws, r.phenotype_id = none ∨ r.phenotype_name = none) →
      ∃ e, readDefs raws = .error e ∧ run db raws = .error e) ∧
    (∀ r : RawDef, r.phenotype_id ≠ none → r.phenotype_name ≠ none →
      ∃ p, readDef r = .ok p ∧ p.case_min_age = r.case_min_age ∧
        p.case_max_age = r.case_max_age) := by
  have readDef_err : ∀ r : RawDef,
      (r.phenotype_id = none ∨ r.phenotype_name = none) →
      ∃ e, readDef r = .error e := by
    intro r hbad
    cases hid : r.phenotype_id with
    | none => exact ⟨_, by unfold readDef; rw [hid]⟩
    | some pid =>
      cases hname : r.phenotype_name with
      | none => exact ⟨_, by unfold readDef; rw [hid, hname]⟩
      | some pname =>
        rcases hbad with hbad | hbad
        · exact absurd hid (hbad ▸ (Option.some_ne_none pid).symm)
        · exact absurd hname (hbad ▸ (Option.some_ne_none pname).symm)
  have key : ∀ rs : List RawDef,
      (∃ r ∈ rs, r.phenotype_id = none ∨ r.phenotype_name = none) →
      ∃ e, readDefs rs = .error e := by
    intro rs
    induction rs with
    | nil => rintro ⟨r, hr, -⟩; exact absurd hr (List.not_mem_nil r)
    | cons a as ih =>
      rintro ⟨r, hr, hbad⟩
      rcases List.mem_cons.1 hr with rfl | hmem
      · obtain ⟨e, he⟩ := readDef_err r hbad
        exact ⟨e, by unfold readDefs; rw [he]⟩
      · cases hra : readDef a with
        | error e => exact ⟨e, by unfold readDefs; rw [hra]⟩
        | ok p =>
          obtain ⟨e, he⟩ := ih ⟨r, hmem, hbad⟩
          exact ⟨e, by unfold readDefs; rw [hra, he]⟩
  refine ⟨?_, ?_⟩
  · intro hbad
    obtain ⟨e, he⟩ := key raws hbad
    exact ⟨e, he, by unfold run; rw [he]⟩
  · intro r h1 h2
    cases hid : r.phenotype_id with
    | none => exact absurd hid h1
    | some pid =>
      cases hname : r.phenotype_name with
      | none => exact absurd hname h2
      | some pname =>
        exact ⟨_, by unfold readDef; rw [hid, hname], rfl, rfl⟩

/-- C8 (amended) witness: the record missing `phenotype_name` aborts the read
and the run, and the inverted-window record loads successfully with its window
intact. -/
theorem definition_errors_abort_loading_witness :
    (∃ e, readDefs [rawMissingName] = .error e ∧
      run scenarioDB [rawMissingName] = .error e) ∧
    (∃ p, readDef rawInverted = .ok p ∧
      p.case_min_age = rawInverted.case_min_age ∧
      p.case_max_age = rawInverted.case_max_age) :=
  ⟨(definition_errors_abort_loading scenarioDB [rawMissingName]).1
    ⟨rawMissingName, List.mem_singleton.2 rfl, Or.inr rfl⟩,
   (definition_errors_abort_loading scenarioDB []).2 rawInverted
    (by decide) (by decide)⟩

/-- C9: the whole derivation is a function of the store contents and the
definition list — two runs on equal inputs render byte-identical matrix and
counts files. -/
theorem pipeline_deterministic (dbA dbB : DB) (psA psB : List PhenotypeDef)
    (hdb : dbA = dbB) (hps : psA = psB) :
    renderMatrix dbA psA = renderMatrix dbB psB ∧
    renderCounts dbA psA = renderCounts dbB psB := by
  subst hdb
  subst hps
  exact ⟨rfl, rfl⟩

/-- C9 witness: two runs of the repository-test scenario agree. -/
theorem pipeline_deterministic_witness :
    renderMatrix scenarioDB [scenarioPheno] =
      renderMatrix scenarioDB [scenarioPheno] ∧
    renderCounts scenarioDB [scenarioPheno] =
      renderCounts scenarioDB [scenarioPheno] :=
  pipeline_deterministic scenarioDB scenarioDB [scenarioPheno] [scenarioPheno]
    rfl rfl

/-- Sanity check: the repository test scenario evaluates as the repository's
own test asserts — person 1 (age-filtered candidate) gets a missing cell,
person 3 gets 1, and the counts report has a single suppressed AFR row. -/
theorem scenario_pipeline_eval :
    (pipeline scenarioDB [scenarioPheno]).1 = [(1, [none]), (3, [some 1])] ∧
    (pipeline scenarioDB [scenarioPheno]).2 =
      [{ phenotype_id := "ph1", ancestry := "AFR",
         ncases := .suppressed, ncontrols := .suppressed }] := by
  exact ⟨by decide, by decide⟩

/-- Sanity check: in `sampleDB` the same-day duplicate events of person 1
collapse to two distinct dates, and person 2 (no date of birth) appears with a
missing age. -/
theorem sample_occurrence_eval :
    (occurrence sampleDB .condition [999]).map
      (fun r => (r.person_id, r.n_dates)) = [(1, 2), (2, 1)] ∧
    (occurrence sampleDB .condition [999]).map (fun r => r.min_age) =
      [some 20, none] := by
  exact ⟨by decide, by decide⟩

end AouPhenoCC
